import Mathlib

/-!
Verification of the CFile on-disk columnar format ("kudu/cfile/cfile.proto")
and the master entity-dump handler ("kudu/master/master-path-handlers.cc").

The first half embeds the protobuf schema of the CFile records together with
proto2 decoding semantics (required fields must be present, optional fields
carry explicit defaults, enum fields reject undeclared wire values).  The
second half models, from the specification, the components whose code is not
among the provided sources: the block encoders and compressors, the writer
state machine, the reader's value seek, and the bloom-filter builder.
-/

/-! ## Wire-level model of a proto2 message

A decoded-but-untyped proto2 message is a list of (field number, value)
pairs, in the order the fields appear on the wire.  A value is either a
varint-backed scalar (int32, int64, bool, enum), a length-delimited byte
string, or an embedded message. -/

inductive PBValue : Type where
  | vint (i : Int) : PBValue
  | bytes (bs : List Nat) : PBValue
  | msg (fields : List (Nat × PBValue)) : PBValue

/-- A raw message is the ordered list of its wire fields. -/
abbrev PBMessage : Type := List (Nat × PBValue)

/-- Proto2 semantics: for a non-repeated field, the last occurrence on the
wire wins. -/
def getField (n : Nat) (fs : PBMessage) : Option PBValue :=
  ((List.filter (fun f => f.1 = n) fs).getLast?).map (fun f => f.2)

/-- Whether field number `n` occurs at all in the raw message. -/
def hasField (n : Nat) (fs : PBMessage) : Bool :=
  List.any fs (fun f => f.1 = n)

/-- Last occurrence of field `n` when it is varint-backed. -/
def getVarint (n : Nat) (fs : PBMessage) : Option Int :=
  match getField n fs with
  | some (PBValue.vint i) => some i
  | _ => none

/-- Last occurrence of field `n` when it is an embedded message. -/
def getMsgField (n : Nat) (fs : PBMessage) : Option PBMessage :=
  match getField n fs with
  | some (PBValue.msg m) => some m
  | _ => none

/-- Last occurrence of field `n` when it is a byte string. -/
def getBytesField (n : Nat) (fs : PBMessage) : Option (List Nat) :=
  match getField n fs with
  | some (PBValue.bytes bs) => some bs
  | _ => none

/-- Truncation of a decoded varint to an int32 field, as the generated
proto2 code performs it (two's-complement wrap at 32 bits). -/
def wrap32 (i : Int) : Int := (i + 2 ^ 31) % 2 ^ 32 - 2 ^ 31

/-- Truncation of a decoded varint to an int64 field (two's-complement wrap
at 64 bits). -/
def wrap64 (i : Int) : Int := (i + 2 ^ 63) % 2 ^ 64 - 2 ^ 63

/-! ## Typed records of cfile.proto -/

/-- message FileMetadataPairPB: required string key = 1; required bytes
value = 2. -/
structure FileMetadataPairPB where
  key : List Nat
  value : List Nat
deriving DecidableEq

/-- message CFileHeaderPB: required int32 major_version = 1; required int32
minor_version = 2; repeated FileMetadataPairPB metadata = 3. -/
structure CFileHeaderPB where
  major_version : Int
  minor_version : Int
  metadata : List FileMetadataPairPB
deriving DecidableEq

/-- message BlockPointerPB: required int64 offset = 1; required int32
size = 2. -/
structure BlockPointerPB where
  offset : Int
  size : Int
deriving DecidableEq

/-- message BTreeInfoPB: required BlockPointerPB root_block = 1. -/
structure BTreeInfoPB where
  root_block : BlockPointerPB
deriving DecidableEq

/-- enum BlockType of IndexBlockTrailerPB: UNKNOWN = 999; LEAF = 0;
INTERNAL = 1. -/
inductive BlockType where
  | UNKNOWN
  | LEAF
  | INTERNAL
deriving DecidableEq

/-- message IndexBlockTrailerPB: required int32 num_entries = 1; required
BlockType type = 2. -/
structure IndexBlockTrailerPB where
  num_entries : Int
  type : BlockType
deriving DecidableEq

/-- Modelled from the spec: common.proto (which declares kudu.DataType) is
not among the provided sources; the data types form a closed set selected
once per file. -/
inductive DataType where
  | UINT32
  | INT32
  | INT64
  | STRING
deriving DecidableEq

/-- Modelled from the spec: common.proto (which declares EncodingType) is
not among the provided sources; the supported encodings are the closed set
of section 4.2 — plain, run-length, bit-shuffled, dictionary. -/
inductive EncodingType where
  | PLAIN_ENCODING
  | RLE
  | BIT_SHUFFLE
  | DICT_ENCODING
deriving DecidableEq

/-- Modelled from the spec: common.proto (which declares CompressionType) is
not among the provided sources; the codecs are the closed set of section
4.3 — none, a Snappy-class, an LZ4-class and a zlib-class codec. -/
inductive CompressionType where
  | NO_COMPRESSION
  | SNAPPY
  | LZ4
  | ZLIB
deriving DecidableEq

/-- message CFileFooterPB.  Optional fields are carried as `Option` so that
wire-level presence is recorded; the `[default=...]` accessors are separate
definitions below. -/
structure CFileFooterPB where
  data_type : DataType
  encoding : EncodingType
  num_values : Int
  posidx_info : Option BTreeInfoPB
  validx_info : Option BTreeInfoPB
  compression : Option CompressionType
  metadata : List FileMetadataPairPB
  is_type_nullable : Option Bool
  dict_block_ptr : Option BlockPointerPB
deriving DecidableEq

/-- message BloomBlockHeaderPB: required int32 num_hash_functions = 1. -/
structure BloomBlockHeaderPB where
  num_hash_functions : Int
deriving DecidableEq

/-! ## proto2 decoding of the typed records -/

/-- Decode a BlockPointerPB: both fields are required, so decoding fails if
either is missing. -/
def decodeBlockPointerPB (fs : PBMessage) : Option BlockPointerPB :=
  match getVarint 1 fs, getVarint 2 fs with
  | some o, some s => some ⟨wrap64 o, wrap32 s⟩
  | _, _ => none

/-- Decode a BTreeInfoPB: root_block is a required submessage, so decoding
fails when field 1 is missing or its pointer is itself malformed. -/
def decodeBTreeInfoPB (fs : PBMessage) : Option BTreeInfoPB :=
  match getMsgField 1 fs with
  | some m => (decodeBlockPointerPB m).map (fun p => ⟨p⟩)
  | none => none

/-- Map a wire value to a declared BlockType constant; any undeclared value
is rejected (proto2 routes it to unknown fields, leaving the required field
unset). -/
def decodeBlockType (i : Int) : Option BlockType :=
  if i = 0 then some BlockType.LEAF
  else if i = 1 then some BlockType.INTERNAL
  else if i = 999 then some BlockType.UNKNOWN
  else none

/-- Decode an IndexBlockTrailerPB: num_entries and type are required. -/
def decodeIndexBlockTrailerPB (fs : PBMessage) : Option IndexBlockTrailerPB :=
  match getVarint 1 fs, (getVarint 2 fs).bind decodeBlockType with
  | some n, some t => some ⟨wrap32 n, t⟩
  | _, _ => none

/-- Modelled from the spec: wire codes of the data-type enum (its .proto
declaration is not among the sources). -/
def decodeDataType (i : Int) : Option DataType :=
  if i = 0 then some DataType.UINT32
  else if i = 1 then some DataType.INT32
  else if i = 2 then some DataType.INT64
  else if i = 3 then some DataType.STRING
  else none

/-- Modelled from the spec: wire codes of the encoding enum (its .proto
declaration is not among the sources). -/
def decodeEncodingType (i : Int) : Option EncodingType :=
  if i = 0 then some EncodingType.PLAIN_ENCODING
  else if i = 1 then some EncodingType.RLE
  else if i = 2 then some EncodingType.BIT_SHUFFLE
  else if i = 3 then some EncodingType.DICT_ENCODING
  else none

/-- Modelled from the spec: wire codes of the compression enum (its .proto
declaration is not among the sources). -/
def decodeCompressionType (i : Int) : Option CompressionType :=
  if i = 0 then some CompressionType.NO_COMPRESSION
  else if i = 1 then some CompressionType.SNAPPY
  else if i = 2 then some CompressionType.LZ4
  else if i = 3 then some CompressionType.ZLIB
  else none

/-- Decode an optional submessage field: absence is fine (`some none`), but
a present yet malformed submessage is a parse error. -/
def decodeOptSub {α : Type} (dec : PBMessage → Option α) (n : Nat)
    (fs : PBMessage) : Option (Option α) :=
  match getField n fs with
  | none => some none
  | some (PBValue.msg m) => (dec m).map some
  | some _ => none

/-- Decode an optional enum field: an undeclared wire value is routed to
unknown fields, so the field is simply treated as unset. -/
def decodeOptEnum {α : Type} (dec : Int → Option α) (n : Nat)
    (fs : PBMessage) : Option α :=
  match getField n fs with
  | some (PBValue.vint i) => dec i
  | _ => none

/-- Decode a FileMetadataPairPB: key and value are required. -/
def decodeFileMetadataPairPB (fs : PBMessage) : Option FileMetadataPairPB :=
  match getBytesField 1 fs, getBytesField 2 fs with
  | some k, some v => some ⟨k, v⟩
  | _, _ => none

/-- Decode a repeated submessage field: all occurrences, in wire order;
any malformed occurrence is a parse error. -/
def decodeRepeatedMsg {α : Type} (dec : PBMessage → Option α) (n : Nat)
    (fs : PBMessage) : Option (List α) :=
  (List.filter (fun f => f.1 = n) fs).mapM (fun f =>
    match f.2 with
    | PBValue.msg m => dec m
    | _ => none)

/-- Decode a CFileFooterPB.  data_type, encoding and num_values are
required; posidx_info, validx_info, compression, is_type_nullable and
dict_block_ptr are optional; metadata is repeated. -/
def decodeCFileFooterPB (fs : PBMessage) : Option CFileFooterPB := do
  let dt ← (getVarint 1 fs).bind decodeDataType
  let enc ← (getVarint 2 fs).bind decodeEncodingType
  let nv ← getVarint 3 fs
  let posidx ← decodeOptSub decodeBTreeInfoPB 4 fs
  let validx ← decodeOptSub decodeBTreeInfoPB 5 fs
  let md ← decodeRepeatedMsg decodeFileMetadataPairPB 7 fs
  let dict ← decodeOptSub decodeBlockPointerPB 9 fs
  some ⟨dt, enc, wrap64 nv, posidx, validx,
        decodeOptEnum decodeCompressionType 6 fs, md,
        (getVarint 8 fs).map (fun i => decide (i ≠ 0)), dict⟩

/-- Accessor for the compression field, applying `[default=NO_COMPRESSION]`
when the field is unset, as the generated proto2 accessor does. -/
def CFileFooterPB.compressionOrDefault (f : CFileFooterPB) : CompressionType :=
  f.compression.getD CompressionType.NO_COMPRESSION

/-- Accessor for the is_type_nullable field, applying `[default=false]`
when the field is unset, as the generated proto2 accessor does. -/
def CFileFooterPB.isTypeNullableOrDefault (f : CFileFooterPB) : Bool :=
  f.is_type_nullable.getD false

/-- A raw footer message carrying only the three required fields; decoding
it succeeds with every optional field unset. -/
def exMinimalFooterMsg : PBMessage :=
  [(1, PBValue.vint 1), (2, PBValue.vint 0), (3, PBValue.vint 7)]

/-- The footer that `exMinimalFooterMsg` decodes to. -/
def exMinimalFooter : CFileFooterPB :=
  ⟨DataType.INT32, EncodingType.PLAIN_ENCODING, 7, none, none, none, [], none, none⟩

/-! ## Block encoders (spec section 4.2)

The encoder/decoder sources are not among the provided files, so this part
is modelled from the specification: a closed set of four encodings, each
encoded block self-contained with a header carrying the entry count and the
file-wide ordinal of its first entry, an optional null bitmap when the
column is nullable, and decoding reproducing the exact original sequence. -/

/-- Modelled from the spec: fixed-width little-endian byte decomposition of
one value; `digitsLE w v` is the `w`-byte representation of `v`. -/
def digitsLE : Nat → Nat → List Nat
  | 0, _ => []
  | w + 1, v => v % 256 :: digitsLE w (v / 256)

/-- Modelled from the spec: recomposition of a little-endian byte list. -/
def undigitsLE : List Nat → Nat
  | [] => 0
  | d :: ds => d + 256 * undigitsLE ds

/-- Modelled from the spec: PLAIN encoding lays fixed-width values out
contiguously. -/
def plainEncode (w : Nat) (xs : List Nat) : List Nat :=
  List.flatMap xs (digitsLE w)

/-- Modelled from the spec: PLAIN decoding of `m` fixed-width values. -/
def plainDecode (w : Nat) : Nat → List Nat → List Nat
  | 0, _ => []
  | m + 1, bs => undigitsLE (bs.take w) :: plainDecode w m (bs.drop w)

/-- Modelled from the spec: maximal runs of equal adjacent values, as
(value, run length) pairs with every run length positive. -/
def rleRuns : List Nat → List (Nat × Nat)
  | [] => []
  | x :: xs =>
    match rleRuns xs with
    | [] => [(x, 1)]
    | (y, n) :: rest =>
      if x = y then (y, n + 1) :: rest else (x, 1) :: (y, n) :: rest

/-- Serialize runs as alternating value and count symbols. -/
def runsToBytes (ps : List (Nat × Nat)) : List Nat :=
  List.flatMap ps (fun p => [p.1, p.2])

/-- Parse alternating value and count symbols back into runs. -/
def bytesToRuns : List Nat → List (Nat × Nat)
  | v :: c :: rest => (v, c) :: bytesToRuns rest
  | _ => []

/-- Expand runs back into the original value sequence. -/
def runsDecode (ps : List (Nat × Nat)) : List Nat :=
  List.flatMap ps (fun p => List.replicate p.2 p.1)

/-- Modelled from the spec: run-length encoding of a value sequence. -/
def rleEncodeBytes (xs : List Nat) : List Nat := runsToBytes (rleRuns xs)

/-- Modelled from the spec: run-length decoding. -/
def rleDecodeBytes (bs : List Nat) : List Nat := runsDecode (bytesToRuns bs)

/-- Modelled from the spec: the byte planes of a value sequence, least
significant first — plane `j` holds byte `j` of every value, so equal byte
positions are stored together (width-wise byte reordering). -/
def bitShufflePlanes : Nat → List Nat → List (List Nat)
  | 0, _ => []
  | w + 1, xs =>
    xs.map (fun v => v % 256) :: bitShufflePlanes w (xs.map (fun v => v / 256))

/-- Split a flat byte list back into `w` planes of `m` bytes each. -/
def bytesToPlanes (m : Nat) : Nat → List Nat → List (List Nat)
  | 0, _ => []
  | w + 1, bs => bs.take m :: bytesToPlanes m w (bs.drop m)

/-- Recombine byte planes (least significant first) into `m` values. -/
def unPlanes (m : Nat) : List (List Nat) → List Nat
  | [] => List.replicate m 0
  | p :: ps => List.zipWith (fun a b => a + 256 * b) p (unPlanes m ps)

/-- Modelled from the spec: BIT_SHUFFLE encoding, a fully reversible
width-wise byte reordering. -/
def bitShuffleEncode (w : Nat) (xs : List Nat) : List Nat :=
  (bitShufflePlanes w xs).flatten

/-- Modelled from the spec: BIT_SHUFFLE decoding of `m` values of width
`w`. -/
def bitShuffleDecode (w m : Nat) (bs : List Nat) : List Nat :=
  unPlanes m (bytesToPlanes m w bs)

/-- Modelled from the spec: the dictionary table, assigning each newly-seen
value the next unused code, in first-seen order. -/
def buildDict (xs : List Nat) : List Nat :=
  xs.foldl (fun d x => if x ∈ d then d else d ++ [x]) []

/-- Code of a value in a dictionary table (index of its first occurrence). -/
def dictIdx : List Nat → Nat → Nat
  | [], _ => 0
  | a :: d, x => if a = x then 0 else dictIdx d x + 1

/-- Modelled from the spec: DICT encoding replaces each value by its
integer code. -/
def dictEncode (d : List Nat) (xs : List Nat) : List Nat := xs.map (dictIdx d)

/-- Modelled from the spec: DICT decoding consults the dictionary table to
recover original values. -/
def dictDecode (d : List Nat) (cs : List Nat) : List Nat :=
  cs.map (fun c => d.getD c 0)

/-- Null bitmap of a nullable value sequence: 1 for present, 0 for null. -/
def nullBitmap (vs : List (Option Nat)) : List Nat :=
  vs.map (fun v => if v.isSome then 1 else 0)

/-- The non-null values of a nullable sequence, in order. -/
def presentValues (vs : List (Option Nat)) : List Nat := vs.filterMap id

/-- Reassemble a nullable sequence from its null bitmap and its non-null
values. -/
def mergeNulls : List Nat → List Nat → List (Option Nat)
  | [], _ => []
  | b :: bs, xs =>
    if b = 1 then
      match xs with
      | x :: xs2 => some x :: mergeNulls bs xs2
      | [] => []
    else none :: mergeNulls bs xs

/-- Encode the non-null values with one of the four supported encodings;
DICT encoding also yields the dictionary table as a separate block. -/
def encodeCore (enc : EncodingType) (w : Nat) (xs : List Nat) :
    List Nat × Option (List Nat) :=
  match enc with
  | EncodingType.PLAIN_ENCODING => (plainEncode w xs, none)
  | EncodingType.RLE => (rleEncodeBytes xs, none)
  | EncodingType.BIT_SHUFFLE => (bitShuffleEncode w xs, none)
  | EncodingType.DICT_ENCODING => (dictEncode (buildDict xs) xs, some (buildDict xs))

/-- Decode `m` non-null values; DICT decoding fails when no dictionary
block is available. -/
def decodeCore (enc : EncodingType) (w : Nat) (dict : Option (List Nat))
    (m : Nat) (bs : List Nat) : Option (List Nat) :=
  match enc with
  | EncodingType.PLAIN_ENCODING => some (plainDecode w m bs)
  | EncodingType.RLE => some (rleDecodeBytes bs)
  | EncodingType.BIT_SHUFFLE => some (bitShuffleDecode w m bs)
  | EncodingType.DICT_ENCODING =>
    match dict with
    | some d => some (dictDecode d bs)
    | none => none

/-- Modelled from the spec: one encoded block — a header recording the
entry count and the file-wide ordinal of its first entry, a null bitmap
when the column is nullable, then the encoded payload; for DICT encoding
the dictionary table is returned alongside as its own block. -/
def encodeValues (enc : EncodingType) (w : Nat) (nullable : Bool)
    (firstOrdinal : Nat) (vs : List (Option Nat)) : List Nat × Option (List Nat) :=
  let core := encodeCore enc w (presentValues vs)
  (vs.length :: firstOrdinal ::
    ((if nullable then nullBitmap vs else []) ++ core.1), core.2)

/-- Modelled from the spec: decode one encoded block back into the original
value sequence with its null pattern. -/
def decodeValues (enc : EncodingType) (w : Nat) (nullable : Bool)
    (dict : Option (List Nat)) : List Nat → Option (List (Option Nat))
  | n :: _fo :: rest =>
    if nullable then
      match decodeCore enc w dict ((rest.take n).count 1) (rest.drop n) with
      | some xs => some (mergeNulls (rest.take n) xs)
      | none => none
    else
      match decodeCore enc w dict n rest with
      | some xs => some (xs.map some)
      | none => none
  | _ => none

/-! ## Block compressor (spec section 4.3) -/

/-- Modelled from the spec: the Snappy-class, LZ4-class and zlib-class
codec algorithms are external to this repository; each is modelled as the
same concrete lossless byte-run compressor, which captures the one property
the format relies on — decompression exactly inverts compression. -/
def modelCompress (bs : List Nat) : List Nat := rleEncodeBytes bs

/-- Inverse of `modelCompress`. -/
def modelDecompress (bs : List Nat) : List Nat := rleDecodeBytes bs

/-- Apply the file-wide compression codec to one block. -/
def compressBytes (c : CompressionType) (bs : List Nat) : List Nat :=
  match c with
  | CompressionType.NO_COMPRESSION => bs
  | _ => modelCompress bs

/-- Undo the file-wide compression codec on one stored block. -/
def decompressBytes (c : CompressionType) (bs : List Nat) : List Nat :=
  match c with
  | CompressionType.NO_COMPRESSION => bs
  | _ => modelDecompress bs

/-- Encode and then compress one block (the write path of sections 4.2 and
4.3); the dictionary block, if any, is returned uncompressed alongside. -/
def encodeBlock (enc : EncodingType) (comp : CompressionType) (w : Nat)
    (nullable : Bool) (firstOrdinal : Nat) (vs : List (Option Nat)) :
    List Nat × Option (List Nat) :=
  let e := encodeValues enc w nullable firstOrdinal vs
  (compressBytes comp e.1, e.2)

/-- Decompress and then decode one stored block (the read path: compression
precedes decode on every read). -/
def decodeBlock (enc : EncodingType) (comp : CompressionType) (w : Nat)
    (nullable : Bool) (dict : Option (List Nat)) (bs : List Nat) :
    Option (List (Option Nat)) :=
  decodeValues enc w nullable dict (decompressBytes comp bs)

/-! ## Bloom filter block (spec section 4.5)

The bloom filter sources are not among the provided files; the model below
follows the specification: a bit array into which every inserted value is
hashed by `num_hash_functions` independent hash functions, with the
hash-function count at least one (section 3 invariant table) validated
eagerly when the builder is constructed. -/

/-- Modelled from the spec: an in-memory bloom filter under construction — a
bit array of `nbits` bits and the count of independent hash functions. -/
structure BloomFilter where
  nbits : Nat
  bits : List Bool
  numHash : Nat
deriving DecidableEq

/-- Modelled from the spec: the member of the independent hash-function
family with index `i`, reduced into the bit array. -/
def bloomHash (i v nbits : Nat) : Nat :=
  (v * (2 * i + 1) + i * i) % max nbits 1

/-- Modelled from the spec: constructing a bloom-filter builder validates
its configuration eagerly — a filter must have at least one hash function
and at least one bit. -/
def mkBloomFilter (nbits k : Nat) : Option BloomFilter :=
  if k = 0 ∨ nbits = 0 then none
  else some ⟨nbits, List.replicate nbits false, k⟩

/-- Hash one value into the filter with every hash function. -/
def BloomFilter.insertValue (bf : BloomFilter) (v : Nat) : BloomFilter :=
  { bf with
    bits := (List.range bf.numHash).foldl
      (fun bs i => bs.set (bloomHash i v bf.nbits) true) bf.bits }

/-- Bloom membership test: all hashed bits must be set. -/
def BloomFilter.mayContain (bf : BloomFilter) (v : Nat) : Bool :=
  (List.range bf.numHash).all (fun i => bf.bits.getD (bloomHash i v bf.nbits) false)

/-- The BloomBlockHeaderPB record leading the serialized bloom block. -/
def BloomFilter.header (bf : BloomFilter) : BloomBlockHeaderPB :=
  ⟨(bf.numHash : Int)⟩

/-- Bit array of the bloom filter accompanying one data block: all the
block's present values inserted into a fresh filter. -/
def bloomBitsFor (k : Nat) (xs : List Nat) : List Bool :=
  match mkBloomFilter 64 k with
  | some bf => (xs.foldl BloomFilter.insertValue bf).bits
  | none => List.replicate 64 false

/-! ## CFile writer (spec sections 4.1, 4.6, 4.7)

The writer sources are not among the provided files; the model below
follows the specification's FINISHING order: data blocks as produced, then
the dictionary block (if any), one bloom block per data block, the
position-index blocks, the value-index blocks (if any), and finally the
footer record with its length and trailing magic. -/

/-- Modelled from the spec: the per-file choices and tunables handed to a
writer (block size, hash-function count and similar are configuration
inputs per section 9). -/
structure WriterOptions where
  dataType : DataType
  encoding : EncodingType
  compression : CompressionType
  valueWidth : Nat
  nullable : Bool
  blockValues : Nat
  buildValidx : Bool
  numHashFunctions : Nat

/-- Fuel-driven worker for `chunkList`; the fuel starts at the list length
and strictly bounds the recursion depth. -/
def chunkListAux {α : Type} : Nat → Nat → List α → List (List α)
  | 0, _, _ => []
  | _ + 1, _, [] => []
  | fuel + 1, k, x :: xs =>
    (x :: List.take (max k 1 - 1) xs) ::
      chunkListAux fuel k (List.drop (max k 1 - 1) xs)

/-- Split the value stream into data-block chunks of at most `max k 1`
values each; every chunk is non-empty. -/
def chunkList {α : Type} (k : Nat) (l : List α) : List (List α) :=
  chunkListAux l.length k l

/-- Pair each chunk with the file-wide ordinal of its first value. -/
def withOrdinals (start : Nat) :
    List (List (Option Nat)) → List (Nat × List (Option Nat))
  | [] => []
  | c :: cs => (start, c) :: withOrdinals (start + c.length) cs

/-- The growing file image together with every block pointer handed out so
far during one write session. -/
structure LayoutState where
  file : List Nat
  ptrs : List BlockPointerPB

/-- Append one serialized block at the current end of the file and record
its pointer. -/
def appendOne (st : LayoutState) (b : List Nat) : LayoutState × BlockPointerPB :=
  let p : BlockPointerPB := ⟨(st.file.length : Int), (b.length : Int)⟩
  (⟨st.file ++ b, st.ptrs ++ [p]⟩, p)

/-- Append several serialized blocks in order. -/
def appendMany (st : LayoutState) : List (List Nat) → LayoutState × List BlockPointerPB
  | [] => (st, [])
  | b :: bs =>
    let r := appendOne st b
    let r2 := appendMany r.1 bs
    (r2.1, r.2 :: r2.2)

/-- The serialized bytes of one data block: encoded under the file's
declared encoding, then compressed under the file-wide codec. -/
def dataBlockBytes (opts : WriterOptions) (oc : Nat × List (Option Nat)) : List Nat :=
  compressBytes opts.compression
    (encodeValues opts.encoding opts.valueWidth opts.nullable oc.1 oc.2).1

/-- The serialized dictionary block: the table length followed by the
ordered table of unique values, compressed like every other block. -/
def dictBlockBytes (opts : WriterOptions) (d : List Nat) : List Nat :=
  compressBytes opts.compression (d.length :: d)

/-- The serialized bloom block of one data block: the BloomBlockHeaderPB
hash-function count, then the filter's bit array. -/
def bloomBlockBytes (opts : WriterOptions) (c : List (Option Nat)) : List Nat :=
  compressBytes opts.compression
    (opts.numHashFunctions ::
      (bloomBitsFor opts.numHashFunctions (presentValues c)).map
        (fun b => if b then 1 else 0))

/-- One serialized leaf index entry: the search key and the data block
pointer it maps to. -/
def indexEntryBytes (e : Nat × BlockPointerPB) : List Nat :=
  [e.1, e.2.offset.toNat, e.2.size.toNat]

/-- One serialized leaf index block: its entries followed by the
IndexBlockTrailerPB pair (entry count, LEAF tag). -/
def indexBlockBytes (entries : List (Nat × BlockPointerPB)) : List Nat :=
  List.flatMap entries indexEntryBytes ++ [entries.length, 0]

/-- The leading file record: magic marker and format version. -/
def headerBytes : List Nat := [107, 117, 100, 117, 99, 102, 105, 108, 1, 0]

/-- The trailing bytes after the last block: the footer record's length and
the fixed trailing magic marker (the footer's own field serialization is
not claimed about, so only its framing is laid out). -/
def footerTailBytes : List Nat := [0, 107, 117, 100, 117, 99, 102, 105, 108]

/-- Everything a completed write session leaves behind: the immutable file
image, the footer record, and every block pointer that was handed out. -/
structure CFileWriteResult where
  file : List Nat
  footer : CFileFooterPB
  allPtrs : List BlockPointerPB

/-- WRITING: encode and flush one data block per chunk of the value
stream, starting right after the file header. -/
def writeDataStage (opts : WriterOptions) (vs : List (Option Nat)) :
    LayoutState × List BlockPointerPB :=
  appendMany ⟨headerBytes, []⟩
    ((withOrdinals 0 (chunkList opts.blockValues vs)).map (dataBlockBytes opts))

/-- FINISHING step 1: flush the dictionary block iff the file's declared
encoding is dictionary-based, recording its pointer for the footer. -/
def writeDictStage (opts : WriterOptions) (vs : List (Option Nat))
    (st : LayoutState) : LayoutState × Option BlockPointerPB :=
  if opts.encoding = EncodingType.DICT_ENCODING then
    let r := appendOne st (dictBlockBytes opts (buildDict (presentValues vs)))
    (r.1, some r.2)
  else (st, none)

/-- FINISHING step 2: flush one bloom block per data block. -/
def writeBloomStage (opts : WriterOptions) (vs : List (Option Nat))
    (st : LayoutState) : LayoutState :=
  (appendMany st
    ((withOrdinals 0 (chunkList opts.blockValues vs)).map
      (fun oc => bloomBlockBytes opts oc.2))).1

/-- FINISHING step 3: flush the position index, whose leaf entries map each
data block's first ordinal to its pointer; always written. -/
def writePosidxStage (opts : WriterOptions) (vs : List (Option Nat))
    (dataPtrs : List BlockPointerPB) (st : LayoutState) :
    LayoutState × BlockPointerPB :=
  appendOne st
    (compressBytes opts.compression
      (indexBlockBytes
        (((withOrdinals 0 (chunkList opts.blockValues vs)).map Prod.fst).zip dataPtrs)))

/-- FINISHING step 4: flush the value index, whose leaf entries map each
data block's first value to its pointer; written iff requested. -/
def writeValidxStage (opts : WriterOptions) (vs : List (Option Nat))
    (dataPtrs : List BlockPointerPB) (st : LayoutState) :
    LayoutState × Option BlockPointerPB :=
  if opts.buildValidx then
    let r := appendOne st
      (compressBytes opts.compression
        (indexBlockBytes
          (((withOrdinals 0 (chunkList opts.blockValues vs)).map
            (fun oc => (presentValues oc.2).headD 0)).zip dataPtrs)))
    (r.1, some r.2)
  else (st, none)

/-- Modelled from the spec: one complete write session over a value
stream — encode and flush data blocks, then the dictionary block iff the
encoding is dictionary-based, then one bloom block per data block, the
position index (always), the value index (iff requested), and the footer. -/
def writeCFile (opts : WriterOptions) (vs : List (Option Nat)) : CFileWriteResult :=
  let d1 := writeDataStage opts vs
  let d2 := writeDictStage opts vs d1.1
  let d3 := writeBloomStage opts vs d2.1
  let d4 := writePosidxStage opts vs d1.2 d3
  let d5 := writeValidxStage opts vs d1.2 d4.1
  ⟨d5.1.file ++ footerTailBytes,
   ⟨opts.dataType, opts.encoding, (vs.length : Int), some ⟨d4.2⟩,
    d5.2.map (fun p => ⟨p⟩), some opts.compression, [],
    some opts.nullable, d2.2⟩,
   d5.1.ptrs⟩

/-! ## CFile reader (spec sections 4.4, 4.8)

The reader sources are not among the provided files; the model follows the
specification: value seek consults the value index when the footer carries
one and otherwise fails with UnsupportedOperation. -/

/-- The error kinds of section 7. -/
inductive CFileStatus where
  | CorruptData
  | UnsupportedEncoding
  | UnsupportedCompression
  | UnsupportedOperation
  | InvalidState
  | IOFailure
deriving DecidableEq

/-- A reader in READY state: the parsed footer plus the value-index leaf
entries reachable from the validx root (lazily cached in the real reader). -/
structure CFileReader where
  footer : CFileFooterPB
  validxLeaves : List (Nat × BlockPointerPB)

/-- Modelled from the spec: value-index lookup returning the leftmost block
whose first key is greatest among those at most the target value. -/
def validxLookup (entries : List (Nat × BlockPointerPB)) (v : Nat) :
    Option BlockPointerPB :=
  let le := entries.filter (fun e => e.1 ≤ v)
  match le.getLast? with
  | none => none
  | some lastE => (le.find? (fun e => e.1 = lastE.1)).map (fun e => e.2)

/-- Modelled from the spec: seek-by-value uses the value index if present,
else fails with UnsupportedOperation. -/
def CFileReader.seekToValue (r : CFileReader) (v : Nat) :
    Except CFileStatus (Option BlockPointerPB) :=
  match r.footer.validx_info with
  | none => Except.error CFileStatus.UnsupportedOperation
  | some _ => Except.ok (validxLookup r.validxLeaves v)

/-! ## Master entity dump (master-path-handlers.cc)

The JsonDumper visitor and HandleDumpEntities, embedded with the JsonWriter
call sequence made explicit as a list of emitted JSON events. -/

/-- One JsonWriter call: object/array delimiters or a string token. -/
inductive JEvent where
  | startObject
  | endObject
  | startArray
  | endArray
  | jstr (s : String)
deriving DecidableEq

/-- Modelled from the spec: the catalog states of SysTablesEntryPB (its
.proto declaration is not among the sources; the handler code compares
against SysTablesEntryPB::RUNNING). -/
inductive SysTablesState where
  | UNKNOWN
  | PREPARING
  | RUNNING
  | ALTERING
  | REMOVED
deriving DecidableEq

/-- Modelled from the spec: the catalog states of SysTabletsEntryPB. -/
inductive SysTabletsState where
  | UNKNOWN
  | PREPARING
  | CREATING
  | RUNNING
  | REPLACED
  | DELETED
deriving DecidableEq

/-- State_Name of SysTablesEntryPB::State. -/
def sysTablesStateName : SysTablesState → String
  | SysTablesState.UNKNOWN => "UNKNOWN"
  | SysTablesState.PREPARING => "PREPARING"
  | SysTablesState.RUNNING => "RUNNING"
  | SysTablesState.ALTERING => "ALTERING"
  | SysTablesState.REMOVED => "REMOVED"

/-- State_Name of SysTabletsEntryPB::State. -/
def sysTabletsStateName : SysTabletsState → String
  | SysTabletsState.UNKNOWN => "UNKNOWN"
  | SysTabletsState.PREPARING => "PREPARING"
  | SysTabletsState.CREATING => "CREATING"
  | SysTabletsState.RUNNING => "RUNNING"
  | SysTabletsState.REPLACED => "REPLACED"
  | SysTabletsState.DELETED => "DELETED"

/-- Raft member types of RaftPeerPB. -/
inductive MemberType where
  | VOTER
  | NON_VOTER
deriving DecidableEq

/-- MemberType_Name of RaftPeerPB::MemberType. -/
def memberTypeName : MemberType → String
  | MemberType.VOTER => "VOTER"
  | MemberType.NON_VOTER => "NON_VOTER"

/-- HostPortPB: a host and port. -/
structure HostPortPB where
  host : String
  port : Nat
deriving DecidableEq

/-- The RaftPeerPB fields the dump reads. -/
structure RaftPeerPB where
  member_type : MemberType
  permanent_uuid : String
  last_known_addr : HostPortPB
deriving DecidableEq

/-- The ConsensusStatePB fields the dump reads: the committed config's
peers and the optional leader uuid. -/
structure ConsensusStatePB where
  peers : List RaftPeerPB
  leader_uuid : Option String
deriving DecidableEq

/-- The SysTablesEntryPB fields the dump reads. -/
structure SysTablesEntryPB where
  name : String
  state : SysTablesState
deriving DecidableEq

/-- The SysTabletsEntryPB fields the dump reads. -/
structure SysTabletsEntryPB where
  state : SysTabletsState
  committed_consensus_state : Option ConsensusStatePB
deriving DecidableEq

/-- The events JsonDumper emits for one replica of a tablet. -/
def peerEvents (p : RaftPeerPB) : List JEvent :=
  [JEvent.startObject,
   JEvent.jstr "type", JEvent.jstr (memberTypeName p.member_type),
   JEvent.jstr "server_uuid", JEvent.jstr p.permanent_uuid,
   JEvent.jstr "addr",
   JEvent.jstr (p.last_known_addr.host ++ ":" ++ toString p.last_known_addr.port),
   JEvent.endObject]

/-- JsonDumper::VisitTable: tables whose state is not RUNNING are skipped
outright; a RUNNING table is dumped as one JSON object. -/
def visitTable (table_id : String) (m : SysTablesEntryPB) : List JEvent :=
  if m.state ≠ SysTablesState.RUNNING then []
  else
    [JEvent.startObject,
     JEvent.jstr "table_id", JEvent.jstr table_id,
     JEvent.jstr "table_name", JEvent.jstr m.name,
     JEvent.jstr "state", JEvent.jstr (sysTablesStateName m.state),
     JEvent.endObject]

/-- JsonDumper::VisitTablet: tablets whose state is not RUNNING are skipped
outright; a RUNNING tablet is dumped as one JSON object, with its replicas
and leader when a committed consensus state is present. -/
def visitTablet (table_id tablet_id : String) (m : SysTabletsEntryPB) : List JEvent :=
  if m.state ≠ SysTabletsState.RUNNING then []
  else
    [JEvent.startObject,
     JEvent.jstr "table_id", JEvent.jstr table_id,
     JEvent.jstr "tablet_id", JEvent.jstr tablet_id,
     JEvent.jstr "state", JEvent.jstr (sysTabletsStateName m.state)] ++
    (match m.committed_consensus_state with
     | none => []
     | some cs =>
       [JEvent.jstr "replicas", JEvent.startArray] ++
       List.flatMap cs.peers peerEvents ++
       [JEvent.endArray] ++
       (match cs.leader_uuid with
        | some l => [JEvent.jstr "leader", JEvent.jstr l]
        | none => [])) ++
    [JEvent.endObject]

/-- MasterPathHandlers::HandleDumpEntities on the success path: one outer
object holding the visited tables array and the visited tablets array. -/
def handleDumpEntities (tables : List (String × SysTablesEntryPB))
    (tablets : List (String × String × SysTabletsEntryPB)) : List JEvent :=
  [JEvent.startObject, JEvent.jstr "tables", JEvent.startArray] ++
  List.flatMap tables (fun p => visitTable p.1 p.2) ++
  [JEvent.endArray, JEvent.jstr "tablets", JEvent.startArray] ++
  List.flatMap tablets (fun p => visitTablet p.1 p.2.1 p.2.2) ++
  [JEvent.endArray, JEvent.endObject]

/-- A reader opened on a file whose footer carries no value index. -/
def exReaderNoValidx : CFileReader := ⟨exMinimalFooter, []⟩

/-- A concrete writer configuration: plain encoding, no compression, one
byte per value, two values per data block. -/
def exWriterOptions : WriterOptions :=
  ⟨DataType.INT32, EncodingType.PLAIN_ENCODING, CompressionType.NO_COMPRESSION,
   1, false, 2, false, 1⟩

/-- A concrete value stream for the writer. -/
def exValues : List (Option Nat) := [some 1, some 2, some 3]

/-! ## Helper lemmas -/

theorem getField_eq_none (n : Nat) (fs : PBMessage) (h : hasField n fs = false) :
    getField n fs = none := by
  unfold getField
  have hf : List.filter (fun f => f.1 = n) fs = [] := by
    rw [List.filter_eq_nil_iff]
    intro a ha
    exact List.any_eq_false.mp h a ha
  rw [hf]
  rfl

theorem getVarint_eq_none (n : Nat) (fs : PBMessage) (h : hasField n fs = false) :
    getVarint n fs = none := by
  unfold getVarint
  rw [getField_eq_none n fs h]

theorem decodeOptEnum_eq_none {α : Type} (dec : Int → Option α) (n : Nat)
    (fs : PBMessage) (h : hasField n fs = false) :
    decodeOptEnum dec n fs = none := by
  unfold decodeOptEnum
  rw [getField_eq_none n fs h]

theorem decodeCFileFooterPB_optional_fields (fs : PBMessage) (f : CFileFooterPB)
    (h : decodeCFileFooterPB fs = some f) :
    f.compression = decodeOptEnum decodeCompressionType 6 fs ∧
    f.is_type_nullable = (getVarint 8 fs).map (fun i => decide (i ≠ 0)) := by
  unfold decodeCFileFooterPB at h
  simp only [Option.bind_eq_some, bind] at h
  obtain ⟨dt, -, enc, -, nv, -, pos, -, val, -, md, -, dict, -, hf⟩ := h
  cases hf
  exact ⟨rfl, rfl⟩

theorem flatMap_eq_flatMap_filter {α β : Type} (p : α → Bool) (f : α → List β)
    (l : List α) (h : ∀ x, p x = false → f x = []) :
    List.flatMap l f = List.flatMap (l.filter p) f := by
  induction l with
  | nil => rfl
  | cons a t ih =>
    cases hp : p a
    · simp [List.flatMap_cons, List.filter_cons, hp, h a hp, ih]
    · simp [List.flatMap_cons, List.filter_cons, hp, ih]

/-! ## Claim theorems on the protobuf schema -/

/-- Claim C1 counterexample: posidx_info is declared optional, so the
minimal raw footer message — carrying only the three required fields —
decodes successfully to a footer whose posidx_info is absent, against the
claim that a decoded CFileFooterPB always carries posidx_info. -/
theorem footer_posidx_always_present_refuted :
    decodeCFileFooterPB exMinimalFooterMsg = some exMinimalFooter ∧
      exMinimalFooter.posidx_info = none :=
  ⟨rfl, rfl⟩

/-- Claim C1 (amended): every footer produced by a completed write session
carries posidx_info — the writer always writes the position index — even
though the schema itself declares the field optional. -/
theorem writer_always_writes_posidx (opts : WriterOptions) (vs : List (Option Nat)) :
    ((writeCFile opts vs).footer.posidx_info).isSome = true := rfl

/-- Claim C2 counterexample: a decoded IndexBlockTrailer can carry a type
outside {LEAF, INTERNAL} — wire value 999 decodes to the declared third
constant UNKNOWN, which is neither LEAF nor INTERNAL. -/
theorem trailer_two_value_set_refuted :
    decodeIndexBlockTrailerPB [(1, PBValue.vint 3), (2, PBValue.vint 999)] =
        some ⟨3, BlockType.UNKNOWN⟩ ∧
      ¬(BlockType.UNKNOWN = BlockType.LEAF ∨
        BlockType.UNKNOWN = BlockType.INTERNAL) :=
  ⟨rfl, by decide⟩

/-- Claim C2 (amended): the type field of an IndexBlockTrailer takes
exactly one of the three declared values LEAF (0), INTERNAL (1) and
UNKNOWN (999); any other wire value fails to decode. -/
theorem index_trailer_type_closed (i : Int) :
    (decodeBlockType i).isSome = true ↔ (i = 0 ∨ i = 1 ∨ i = 999) := by
  unfold decodeBlockType
  split_ifs <;> simp_all

/-- Claim C6: decoding a footer whose compression field is absent yields
the no-compression codec through the defaulted accessor, and one whose
is_type_nullable field is absent yields is_type_nullable = false. -/
theorem footer_absent_fields_take_defaults (fs : PBMessage) (f : CFileFooterPB)
    (h : decodeCFileFooterPB fs = some f) :
    (hasField 6 fs = false →
      f.compressionOrDefault = CompressionType.NO_COMPRESSION) ∧
    (hasField 8 fs = false → f.isTypeNullableOrDefault = false) := by
  obtain ⟨hc, hn⟩ := decodeCFileFooterPB_optional_fields fs f h
  constructor
  · intro h6
    unfold CFileFooterPB.compressionOrDefault
    rw [hc, decodeOptEnum_eq_none decodeCompressionType 6 fs h6]
    rfl
  · intro h8
    unfold CFileFooterPB.isTypeNullableOrDefault
    rw [hn, getVarint_eq_none 8 fs h8]
    rfl

/-- Witness for C6: the minimal raw footer message has neither field 6 nor
field 8, and its decoded footer reads back the declared defaults. -/
theorem footer_absent_fields_take_defaults_witness :
    exMinimalFooter.compressionOrDefault = CompressionType.NO_COMPRESSION ∧
    exMinimalFooter.isTypeNullableOrDefault = false := by
  have h := footer_absent_fields_take_defaults exMinimalFooterMsg exMinimalFooter (by rfl)
  exact ⟨h.1 (by rfl), h.2 (by rfl)⟩

/-- Claim C9: a BTreeInfoPB decodes successfully exactly when its required
root_block submessage is present (and itself well-formed) on the wire, so
an index handle never exists without a root block to start traversal
from. -/
theorem btree_info_decodes_iff_root_present (fs : PBMessage) :
    (decodeBTreeInfoPB fs).isSome = true ↔
      ∃ m, getMsgField 1 fs = some m ∧ (decodeBlockPointerPB m).isSome = true := by
  unfold decodeBTreeInfoPB
  cases h : getMsgField 1 fs with
  | none => simp
  | some m =>
    cases hp : decodeBlockPointerPB m with
    | none => simp [hp]
    | some p => simp [hp]

/-! ## Claim theorems on the reader and the bloom builder -/

/-- Claim C5: on a reader whose footer has no validx_info, seekToValue
fails with UnsupportedOperation for every target value. -/
theorem seek_to_value_requires_validx (r : CFileReader) (v : Nat)
    (h : r.footer.validx_info = none) :
    r.seekToValue v = Except.error CFileStatus.UnsupportedOperation := by
  unfold CFileReader.seekToValue
  rw [h]

/-- Witness for C5: a concrete reader without a value index rejects a
concrete seek. -/
theorem seek_to_value_requires_validx_witness :
    CFileReader.seekToValue exReaderNoValidx 5 =
      Except.error CFileStatus.UnsupportedOperation :=
  seek_to_value_requires_validx exReaderNoValidx 5 rfl

/-- Claim C8: every bloom block header has at least one hash function —
the builder's eager configuration check refuses a zero count. -/
theorem bloom_header_min_hash_functions (nbits k : Nat) (bf : BloomFilter)
    (h : mkBloomFilter nbits k = some bf) :
    1 ≤ (BloomFilter.header bf).num_hash_functions := by
  unfold mkBloomFilter at h
  by_cases hk : k = 0 ∨ nbits = 0
  · simp [hk] at h
  · simp only [if_neg hk, Option.some.injEq] at h
    rw [← h]
    unfold BloomFilter.header
    simp only
    push_neg at hk
    omega

/-- Witness for C8: a concretely constructed bloom filter carries a
positive hash-function count in its header. -/
theorem bloom_header_min_hash_functions_witness :
    1 ≤ (BloomFilter.header ⟨64, List.replicate 64 false, 4⟩).num_hash_functions :=
  bloom_header_min_hash_functions 64 4 ⟨64, List.replicate 64 false, 4⟩ (by rfl)

/-! ## Claim theorem on the master entity dump -/

/-- Claim C10: HandleDumpEntities emits objects only for RUNNING tables and
tablets — the dump of any catalog equals the dump of its RUNNING-filtered
catalog, because the visitors return without emitting anything for every
entity whose state is not RUNNING. -/
theorem dump_entities_only_running (tables : List (String × SysTablesEntryPB))
    (tablets : List (String × String × SysTabletsEntryPB)) :
    handleDumpEntities tables tablets =
      handleDumpEntities
        (tables.filter (fun p => p.2.state = SysTablesState.RUNNING))
        (tablets.filter (fun p => p.2.2.state = SysTabletsState.RUNNING)) := by
  unfold handleDumpEntities
  rw [flatMap_eq_flatMap_filter (fun p => p.2.state = SysTablesState.RUNNING)
      (fun p => visitTable p.1 p.2) tables ?_,
    flatMap_eq_flatMap_filter (fun p => p.2.2.state = SysTabletsState.RUNNING)
      (fun p => visitTablet p.1 p.2.1 p.2.2) tablets ?_]
  · intro x hx
    simp only [decide_eq_false_iff_not] at hx
    simp [visitTablet, hx]
  · intro x hx
    simp only [decide_eq_false_iff_not] at hx
    simp [visitTable, hx]

/-! ## Round-trip lemmas for the block encoders -/

theorem digitsLE_length (w : Nat) : ∀ v : Nat, (digitsLE w v).length = w := by
  induction w with
  | zero => intro v; rfl
  | succ w ih => intro v; simp [digitsLE, ih]

theorem undigitsLE_digitsLE (w : Nat) : ∀ v : Nat, v < 256 ^ w →
    undigitsLE (digitsLE w v) = v := by
  induction w with
  | zero =>
    intro v h
    simp only [pow_zero, Nat.lt_one_iff] at h
    subst h
    rfl
  | succ w ih =>
    intro v h
    have hv : v / 256 < 256 ^ w := by
      rw [Nat.div_lt_iff_lt_mul (by norm_num : 0 < 256)]
      calc v < 256 ^ (w + 1) := h
        _ = 256 ^ w * 256 := by ring
    simp only [digitsLE, undigitsLE, ih _ hv]
    exact Nat.mod_add_div v 256

theorem plainDecode_plainEncode (w : Nat) (xs : List Nat)
    (h : ∀ x ∈ xs, x < 256 ^ w) :
    plainDecode w xs.length (plainEncode w xs) = xs := by
  induction xs with
  | nil => rfl
  | cons x t ih =>
    have henc : plainEncode w (x :: t) = digitsLE w x ++ plainEncode w t := by
      simp [plainEncode]
    show plainDecode w (t.length + 1) (plainEncode w (x :: t)) = x :: t
    rw [henc]
    simp only [plainDecode]
    rw [List.take_left' (digitsLE_length w x), List.drop_left' (digitsLE_length w x)]
    rw [undigitsLE_digitsLE w x (h x (List.mem_cons_self x t))]
    rw [ih (fun y hy => h y (List.mem_cons_of_mem x hy))]

theorem rleRuns_eq_nil (xs : List Nat) (h : rleRuns xs = []) : xs = [] := by
  cases xs with
  | nil => rfl
  | cons x t =>
    exfalso
    unfold rleRuns at h
    cases ht : rleRuns t with
    | nil => rw [ht] at h; simp at h
    | cons p rest =>
      rw [ht] at h
      rcases p with ⟨y, n⟩
      by_cases hxy : x = y <;> simp [hxy] at h

theorem runsDecode_rleRuns (xs : List Nat) : runsDecode (rleRuns xs) = xs := by
  induction xs with
  | nil => rfl
  | cons x t ih =>
    cases ht : rleRuns t with
    | nil =>
      have h0 : t = [] := rleRuns_eq_nil t ht
      subst h0
      rfl
    | cons p rest =>
      rcases p with ⟨y, n⟩
      by_cases hxy : x = y
      · subst hxy
        have hstep : rleRuns (x :: t) = (x, n + 1) :: rest := by
          unfold rleRuns
          rw [ht]
          simp
        rw [hstep]
        have hexp : runsDecode ((x, n) :: rest) = t := by rw [← ht]; exact ih
        simp only [runsDecode, List.flatMap_cons] at hexp ⊢
        rw [List.replicate_succ, List.cons_append, hexp]
      · have hstep : rleRuns (x :: t) = (x, 1) :: (y, n) :: rest := by
          unfold rleRuns
          rw [ht]
          simp [hxy]
        rw [hstep]
        have hexp : runsDecode ((y, n) :: rest) = t := by rw [← ht]; exact ih
        simp only [runsDecode, List.flatMap_cons] at hexp ⊢
        rw [hexp]
        rfl

theorem bytesToRuns_runsToBytes (ps : List (Nat × Nat)) :
    bytesToRuns (runsToBytes ps) = ps := by
  induction ps with
  | nil => rfl
  | cons p t ih =>
    rcases p with ⟨v, c⟩
    simp only [runsToBytes, List.flatMap_cons] at ih ⊢
    show bytesToRuns (v :: c :: List.flatMap t (fun p => [p.1, p.2])) = (v, c) :: t
    rw [bytesToRuns, ih]

theorem rleDecodeBytes_rleEncodeBytes (xs : List Nat) :
    rleDecodeBytes (rleEncodeBytes xs) = xs := by
  unfold rleDecodeBytes rleEncodeBytes
  rw [bytesToRuns_runsToBytes, runsDecode_rleRuns]

theorem zipWith_map_pair {α β γ δ : Type} (g : β → γ → δ) (f1 : α → β)
    (f2 : α → γ) (l : List α) :
    List.zipWith g (l.map f1) (l.map f2) = l.map (fun x => g (f1 x) (f2 x)) := by
  induction l with
  | nil => rfl
  | cons a t ih => simp [ih]

theorem bytesToPlanes_flatten (w : Nat) : ∀ xs : List Nat,
    bytesToPlanes xs.length w (bitShufflePlanes w xs).flatten = bitShufflePlanes w xs := by
  induction w with
  | zero => intro xs; rfl
  | succ w ih =>
    intro xs
    simp only [bitShufflePlanes, List.flatten_cons, bytesToPlanes]
    rw [List.take_left' (List.length_map xs _), List.drop_left' (List.length_map xs _)]
    have hih := ih (xs.map (fun v => v / 256))
    rw [List.length_map] at hih
    rw [hih]

theorem unPlanes_bitShufflePlanes (w : Nat) : ∀ xs : List Nat,
    (∀ x ∈ xs, x < 256 ^ w) →
    unPlanes xs.length (bitShufflePlanes w xs) = xs := by
  induction w with
  | zero =>
    intro xs h
    show List.replicate xs.length 0 = xs
    symm
    rw [List.eq_replicate_iff]
    refine ⟨rfl, fun b hb => ?_⟩
    have := h b hb
    simpa using this
  | succ w ih =>
    intro xs h
    simp only [bitShufflePlanes, unPlanes]
    have hbound : ∀ y ∈ xs.map (fun v => v / 256), y < 256 ^ w := by
      intro y hy
      obtain ⟨x, hx, rfl⟩ := List.mem_map.mp hy
      rw [Nat.div_lt_iff_lt_mul (by norm_num : 0 < 256)]
      calc x < 256 ^ (w + 1) := h x hx
        _ = 256 ^ w * 256 := by ring
    have hih := ih (xs.map (fun v => v / 256)) hbound
    rw [List.length_map] at hih
    rw [hih, zipWith_map_pair]
    have hid : (fun x => x % 256 + 256 * (x / 256)) = (id : Nat → Nat) :=
      funext fun x => Nat.mod_add_div x 256
    rw [hid, List.map_id]

theorem bitShuffleDecode_bitShuffleEncode (w : Nat) (xs : List Nat)
    (h : ∀ x ∈ xs, x < 256 ^ w) :
    bitShuffleDecode w xs.length (bitShuffleEncode w xs) = xs := by
  unfold bitShuffleDecode bitShuffleEncode
  rw [bytesToPlanes_flatten, unPlanes_bitShufflePlanes w xs h]

theorem mem_foldl_buildDict (xs : List Nat) (x : Nat) :
    ∀ d : List Nat, x ∈ d ∨ x ∈ xs →
      x ∈ xs.foldl (fun d x => if x ∈ d then d else d ++ [x]) d := by
  induction xs with
  | nil =>
    intro d h
    rcases h with h | h
    · exact h
    · cases h
  | cons a t ih =>
    intro d h
    simp only [List.foldl_cons]
    apply ih
    by_cases ha : a ∈ d
    · rw [if_pos ha]
      rcases h with h | h
      · exact Or.inl h
      · rcases List.mem_cons.mp h with rfl | h'
        · exact Or.inl ha
        · exact Or.inr h'
    · rw [if_neg ha]
      rcases h with h | h
      · exact Or.inl (List.mem_append_left _ h)
      · rcases List.mem_cons.mp h with rfl | h'
        · exact Or.inl (List.mem_append_right _ (by simp))
        · exact Or.inr h'

theorem mem_buildDict (xs : List Nat) (x : Nat) (h : x ∈ xs) : x ∈ buildDict xs :=
  mem_foldl_buildDict xs x [] (Or.inr h)

theorem getD_dictIdx (d : List Nat) (x : Nat) (h : x ∈ d) :
    d.getD (dictIdx d x) 0 = x := by
  induction d with
  | nil => cases h
  | cons a t ih =>
    by_cases hax : a = x
    · simp [dictIdx, hax]
    · have hxt : x ∈ t := by
        rcases List.mem_cons.mp h with rfl | h'
        · exact absurd rfl hax
        · exact h'
      simp only [dictIdx, if_neg hax, List.getD_cons_succ]
      exact ih hxt

theorem dictDecode_dictEncode (xs : List Nat) :
    dictDecode (buildDict xs) (dictEncode (buildDict xs) xs) = xs := by
  unfold dictDecode dictEncode
  rw [List.map_map]
  have hcong : ∀ x ∈ xs,
      ((buildDict xs).getD (dictIdx (buildDict xs) x) 0) = id x :=
    fun x hx => getD_dictIdx _ x (mem_buildDict xs x hx)
  calc List.map ((fun c => (buildDict xs).getD c 0) ∘ dictIdx (buildDict xs)) xs
      = List.map id xs := List.map_congr_left hcong
    _ = xs := List.map_id xs

theorem mergeNulls_nullBitmap (vs : List (Option Nat)) :
    mergeNulls (nullBitmap vs) (presentValues vs) = vs := by
  induction vs with
  | nil => rfl
  | cons v t ih =>
    cases v with
    | some x =>
      show mergeNulls (1 :: nullBitmap t) (presentValues (some x :: t)) = some x :: t
      have hp : presentValues (some x :: t) = x :: presentValues t := by
        simp [presentValues]
      rw [hp]
      simp [mergeNulls, ih]
    | none =>
      show mergeNulls (0 :: nullBitmap t) (presentValues (none :: t)) = none :: t
      have hp : presentValues ((none : Option Nat) :: t) = presentValues t := by
        simp [presentValues]
      rw [hp]
      simp [mergeNulls, ih]

theorem count_one_nullBitmap (vs : List (Option Nat)) :
    (nullBitmap vs).count 1 = (presentValues vs).length := by
  induction vs with
  | nil => rfl
  | cons v t ih =>
    cases v with
    | some x =>
      show (1 :: nullBitmap t).count 1 = (presentValues (some x :: t)).length
      have hp : presentValues (some x :: t) = x :: presentValues t := by
        simp [presentValues]
      rw [hp, List.count_cons]
      simp [ih]
    | none =>
      show (0 :: nullBitmap t).count 1 = (presentValues (none :: t)).length
      have hp : presentValues ((none : Option Nat) :: t) = presentValues t := by
        simp [presentValues]
      rw [hp, List.count_cons]
      simp [ih]

theorem length_nullBitmap (vs : List (Option Nat)) :
    (nullBitmap vs).length = vs.length := List.length_map vs _

theorem map_some_presentValues (vs : List (Option Nat))
    (h : ∀ v ∈ vs, v.isSome = true) :
    (presentValues vs).map some = vs := by
  induction vs with
  | nil => rfl
  | cons v t ih =>
    cases v with
    | some x =>
      have hp : presentValues (some x :: t) = x :: presentValues t := by
        simp [presentValues]
      rw [hp]
      simp only [List.map_cons]
      rw [ih (fun y hy => h y (List.mem_cons_of_mem _ hy))]
    | none =>
      have := h none (List.mem_cons_self _ _)
      simp at this

theorem length_presentValues_of_all_some (vs : List (Option Nat))
    (h : ∀ v ∈ vs, v.isSome = true) :
    (presentValues vs).length = vs.length := by
  have := congrArg List.length (map_some_presentValues vs h)
  simpa using this

theorem decompressBytes_compressBytes (c : CompressionType) (bs : List Nat) :
    decompressBytes c (compressBytes c bs) = bs := by
  cases c <;>
    simp [compressBytes, decompressBytes, modelCompress, modelDecompress,
      rleDecodeBytes_rleEncodeBytes]

theorem decodeCore_encodeCore (enc : EncodingType) (w : Nat) (xs : List Nat)
    (h : ∀ x ∈ xs, x < 256 ^ w) :
    decodeCore enc w (encodeCore enc w xs).2 xs.length (encodeCore enc w xs).1 =
      some xs := by
  cases enc with
  | PLAIN_ENCODING =>
    simp only [encodeCore, decodeCore]
    rw [plainDecode_plainEncode w xs h]
  | RLE =>
    simp only [encodeCore, decodeCore]
    rw [rleDecodeBytes_rleEncodeBytes]
  | BIT_SHUFFLE =>
    simp only [encodeCore, decodeCore]
    rw [bitShuffleDecode_bitShuffleEncode w xs h]
  | DICT_ENCODING =>
    simp only [encodeCore, decodeCore]
    rw [dictDecode_dictEncode]

theorem decodeValues_encodeValues (enc : EncodingType) (w : Nat) (nullable : Bool)
    (fo : Nat) (vs : List (Option Nat))
    (hw : ∀ x ∈ presentValues vs, x < 256 ^ w)
    (hnn : nullable = false → ∀ v ∈ vs, v.isSome = true) :
    decodeValues enc w nullable (encodeValues enc w nullable fo vs).2
      (encodeValues enc w nullable fo vs).1 = some vs := by
  cases nullable with
  | true =>
    show decodeValues enc w true (encodeCore enc w (presentValues vs)).2
        (vs.length :: fo ::
          (nullBitmap vs ++ (encodeCore enc w (presentValues vs)).1)) = some vs
    simp only [decodeValues, if_true]
    rw [List.take_left' (length_nullBitmap vs),
      List.drop_left' (length_nullBitmap vs)]
    rw [count_one_nullBitmap]
    rw [decodeCore_encodeCore enc w (presentValues vs) hw]
    simp [mergeNulls_nullBitmap]
  | false =>
    have hall := hnn rfl
    show decodeValues enc w false (encodeCore enc w (presentValues vs)).2
        (vs.length :: fo :: (encodeCore enc w (presentValues vs)).1) = some vs
    simp only [decodeValues]
    rw [if_neg (by decide : ¬(false = true))]
    rw [show vs.length = (presentValues vs).length from
      (length_presentValues_of_all_some vs hall).symm]
    rw [decodeCore_encodeCore enc w (presentValues vs) hw]
    simp [map_some_presentValues vs hall]

/-- Claim C3: for every supported encoding and compression combination and
every value sequence — including null patterns when the column is
nullable — decoding the encoded and compressed block reproduces exactly the
original value sequence and null pattern.  The width hypothesis says every
present value fits the column's fixed value width; the second hypothesis
says a non-nullable column holds no nulls. -/
theorem cfile_block_roundtrip (enc : EncodingType) (comp : CompressionType)
    (w : Nat) (nullable : Bool) (fo : Nat) (vs : List (Option Nat))
    (hw : ∀ x ∈ presentValues vs, x < 256 ^ w)
    (hnn : nullable = false → ∀ v ∈ vs, v.isSome = true) :
    decodeBlock enc comp w nullable (encodeBlock enc comp w nullable fo vs).2
      (encodeBlock enc comp w nullable fo vs).1 = some vs := by
  show decodeValues enc w nullable (encodeValues enc w nullable fo vs).2
      (decompressBytes comp
        (compressBytes comp (encodeValues enc w nullable fo vs).1)) = some vs
  rw [decompressBytes_compressBytes]
  exact decodeValues_encodeValues enc w nullable fo vs hw hnn

/-- Witness for C3: a concrete dictionary-encoded, Snappy-class-compressed,
nullable block round-trips exactly. -/
theorem cfile_block_roundtrip_witness :
    decodeBlock EncodingType.DICT_ENCODING CompressionType.SNAPPY 1 true
      (encodeBlock EncodingType.DICT_ENCODING CompressionType.SNAPPY 1 true 0
        [some 9, none, some 9, some 4]).2
      (encodeBlock EncodingType.DICT_ENCODING CompressionType.SNAPPY 1 true 0
        [some 9, none, some 9, some 4]).1 =
      some [some 9, none, some 9, some 4] :=
  cfile_block_roundtrip EncodingType.DICT_ENCODING CompressionType.SNAPPY 1 true 0
    [some 9, none, some 9, some 4] (by decide) (by decide)

/-- Claim C4: in every footer produced by a completed write session, the
dict_block_ptr field is present exactly when the file's declared encoding
is dictionary-based. -/
theorem writer_dict_ptr_iff_dict_encoding (opts : WriterOptions)
    (vs : List (Option Nat)) :
    ((writeCFile opts vs).footer.dict_block_ptr).isSome = true ↔
      opts.encoding = EncodingType.DICT_ENCODING := by
  unfold writeCFile
  by_cases h : opts.encoding = EncodingType.DICT_ENCODING <;>
    simp [writeDictStage, h]

/-! ## Layout lemmas for the writer's block pointers -/

theorem rleRuns_ne_nil (xs : List Nat) (h : xs ≠ []) : rleRuns xs ≠ [] := by
  cases xs with
  | nil => exact absurd rfl h
  | cons x t =>
    unfold rleRuns
    cases ht : rleRuns t with
    | nil => simp
    | cons p rest =>
      rcases p with ⟨y, n⟩
      by_cases hxy : x = y <;> simp [hxy]

theorem compressBytes_ne_nil (c : CompressionType) (bs : List Nat) (h : bs ≠ []) :
    compressBytes c bs ≠ [] := by
  have hm : modelCompress bs ≠ [] := by
    unfold modelCompress rleEncodeBytes
    have hr := rleRuns_ne_nil bs h
    cases hrr : rleRuns bs with
    | nil => exact absurd hrr hr
    | cons p t => simp [runsToBytes, List.flatMap_cons]
  cases c
  case NO_COMPRESSION => exact h
  all_goals exact hm

theorem appendOne_inv (st : LayoutState) (b : List Nat) (hb : b ≠ [])
    (hinv : ∀ q ∈ st.ptrs, 0 ≤ q.offset ∧ 0 < q.size ∧
      q.offset + q.size ≤ (st.file.length : Int)) :
    ∀ q ∈ (appendOne st b).1.ptrs, 0 ≤ q.offset ∧ 0 < q.size ∧
      q.offset + q.size ≤ ((appendOne st b).1.file.length : Int) := by
  intro q hq
  have hq2 : q ∈ st.ptrs ++
      [(⟨(st.file.length : Int), (b.length : Int)⟩ : BlockPointerPB)] := hq
  have hlen : ((appendOne st b).1.file.length : Int) =
      (st.file.length : Int) + (b.length : Int) := by
    show (((st.file ++ b).length : Nat) : Int) = _
    push_cast [List.length_append]
    ring
  rw [hlen]
  rcases List.mem_append.mp hq2 with hmem | hmem
  · obtain ⟨h1, h2, h3⟩ := hinv q hmem
    exact ⟨h1, h2, by omega⟩
  · have hqe : q = ⟨(st.file.length : Int), (b.length : Int)⟩ := by
      simpa using hmem
    subst hqe
    have hbl : 0 < b.length := List.length_pos.mpr hb
    refine ⟨Int.natCast_nonneg _, ?_, le_refl _⟩
    show (0 : Int) < (b.length : Int)
    exact_mod_cast hbl

theorem appendMany_inv (bs : List (List Nat)) : ∀ st : LayoutState,
    (∀ b ∈ bs, b ≠ []) →
    (∀ q ∈ st.ptrs, 0 ≤ q.offset ∧ 0 < q.size ∧
      q.offset + q.size ≤ (st.file.length : Int)) →
    ∀ q ∈ (appendMany st bs).1.ptrs, 0 ≤ q.offset ∧ 0 < q.size ∧
      q.offset + q.size ≤ ((appendMany st bs).1.file.length : Int) := by
  induction bs with
  | nil => intro st _ hinv; exact hinv
  | cons b t ih =>
    intro st hb hinv
    show ∀ q ∈ (appendMany (appendOne st b).1 t).1.ptrs, _
    exact ih (appendOne st b).1
      (fun x hx => hb x (List.mem_cons_of_mem _ hx))
      (appendOne_inv st b (hb b (List.mem_cons_self _ _)) hinv)

theorem encodeValues_fst_ne_nil (enc : EncodingType) (w : Nat) (nullable : Bool)
    (fo : Nat) (vs : List (Option Nat)) : (encodeValues enc w nullable fo vs).1 ≠ [] := by
  unfold encodeValues
  exact List.cons_ne_nil _ _

theorem dataBlockBytes_ne_nil (opts : WriterOptions) (oc : Nat × List (Option Nat)) :
    dataBlockBytes opts oc ≠ [] :=
  compressBytes_ne_nil _ _ (encodeValues_fst_ne_nil _ _ _ _ _)

theorem dictBlockBytes_ne_nil (opts : WriterOptions) (d : List Nat) :
    dictBlockBytes opts d ≠ [] :=
  compressBytes_ne_nil _ _ (List.cons_ne_nil _ _)

theorem bloomBlockBytes_ne_nil (opts : WriterOptions) (c : List (Option Nat)) :
    bloomBlockBytes opts c ≠ [] :=
  compressBytes_ne_nil _ _ (List.cons_ne_nil _ _)

theorem indexBlockBytes_ne_nil (entries : List (Nat × BlockPointerPB)) :
    indexBlockBytes entries ≠ [] := by
  unfold indexBlockBytes
  intro h
  have hlen := congrArg List.length h
  simp at hlen

theorem writeDataStage_inv (opts : WriterOptions) (vs : List (Option Nat)) :
    ∀ q ∈ (writeDataStage opts vs).1.ptrs, 0 ≤ q.offset ∧ 0 < q.size ∧
      q.offset + q.size ≤ ((writeDataStage opts vs).1.file.length : Int) := by
  unfold writeDataStage
  apply appendMany_inv
  · intro b hb
    obtain ⟨oc, -, rfl⟩ := List.mem_map.mp hb
    exact dataBlockBytes_ne_nil opts oc
  · intro q hq
    simp at hq

theorem writeDictStage_inv (opts : WriterOptions) (vs : List (Option Nat))
    (st : LayoutState)
    (hinv : ∀ q ∈ st.ptrs, 0 ≤ q.offset ∧ 0 < q.size ∧
      q.offset + q.size ≤ (st.file.length : Int)) :
    ∀ q ∈ (writeDictStage opts vs st).1.ptrs, 0 ≤ q.offset ∧ 0 < q.size ∧
      q.offset + q.size ≤ ((writeDictStage opts vs st).1.file.length : Int) := by
  unfold writeDictStage
  split_ifs with h
  · exact appendOne_inv st _ (dictBlockBytes_ne_nil opts _) hinv
  · exact hinv

theorem writeBloomStage_inv (opts : WriterOptions) (vs : List (Option Nat))
    (st : LayoutState)
    (hinv : ∀ q ∈ st.ptrs, 0 ≤ q.offset ∧ 0 < q.size ∧
      q.offset + q.size ≤ (st.file.length : Int)) :
    ∀ q ∈ (writeBloomStage opts vs st).ptrs, 0 ≤ q.offset ∧ 0 < q.size ∧
      q.offset + q.size ≤ ((writeBloomStage opts vs st).file.length : Int) := by
  unfold writeBloomStage
  apply appendMany_inv
  · intro b hb
    obtain ⟨oc, -, rfl⟩ := List.mem_map.mp hb
    exact bloomBlockBytes_ne_nil opts oc.2
  · exact hinv

theorem writePosidxStage_inv (opts : WriterOptions) (vs : List (Option Nat))
    (dataPtrs : List BlockPointerPB) (st : LayoutState)
    (hinv : ∀ q ∈ st.ptrs, 0 ≤ q.offset ∧ 0 < q.size ∧
      q.offset + q.size ≤ (st.file.length : Int)) :
    ∀ q ∈ (writePosidxStage opts vs dataPtrs st).1.ptrs,
      0 ≤ q.offset ∧ 0 < q.size ∧
      q.offset + q.size ≤ ((writePosidxStage opts vs dataPtrs st).1.file.length : Int) := by
  unfold writePosidxStage
  exact appendOne_inv st _
    (compressBytes_ne_nil _ _ (indexBlockBytes_ne_nil _)) hinv

theorem writeValidxStage_inv (opts : WriterOptions) (vs : List (Option Nat))
    (dataPtrs : List BlockPointerPB) (st : LayoutState)
    (hinv : ∀ q ∈ st.ptrs, 0 ≤ q.offset ∧ 0 < q.size ∧
      q.offset + q.size ≤ (st.file.length : Int)) :
    ∀ q ∈ (writeValidxStage opts vs dataPtrs st).1.ptrs,
      0 ≤ q.offset ∧ 0 < q.size ∧
      q.offset + q.size ≤ ((writeValidxStage opts vs dataPtrs st).1.file.length : Int) := by
  unfold writeValidxStage
  split_ifs with h
  · exact appendOne_inv st _
      (compressBytes_ne_nil _ _ (indexBlockBytes_ne_nil _)) hinv
  · exact hinv

/-- Claim C7: every block pointer handed out by a completed write session
has a non-negative offset, a positive size, and ends at or before the end
of the finished file. -/
theorem writer_block_pointers_in_bounds (opts : WriterOptions)
    (vs : List (Option Nat)) (p : BlockPointerPB)
    (hp : p ∈ (writeCFile opts vs).allPtrs) :
    0 ≤ p.offset ∧ 0 < p.size ∧
      p.offset + p.size ≤ ((writeCFile opts vs).file.length : Int) := by
  have i1 := writeDataStage_inv opts vs
  have i2 := writeDictStage_inv opts vs _ i1
  have i3 := writeBloomStage_inv opts vs _ i2
  have i4 := writePosidxStage_inv opts vs (writeDataStage opts vs).2 _ i3
  have i5 := writeValidxStage_inv opts vs (writeDataStage opts vs).2 _ i4
  obtain ⟨h1, h2, h3⟩ := i5 p hp
  refine ⟨h1, h2, ?_⟩
  have hmono : ∀ (st : LayoutState) (tail : List Nat),
      p.offset + p.size ≤ (st.file.length : Int) →
      p.offset + p.size ≤ (((st.file ++ tail).length : Nat) : Int) := by
    intro st tail hle
    push_cast [List.length_append]
    omega
  exact hmono _ footerTailBytes h3

/-- Witness for C7: the first data block pointer of a concrete write
session is in bounds of the concrete finished file. -/
theorem writer_block_pointers_in_bounds_witness :
    0 ≤ (⟨10, 4⟩ : BlockPointerPB).offset ∧
      0 < (⟨10, 4⟩ : BlockPointerPB).size ∧
      (⟨10, 4⟩ : BlockPointerPB).offset + (⟨10, 4⟩ : BlockPointerPB).size ≤
        ((writeCFile exWriterOptions exValues).file.length : Int) :=
  writer_block_pointers_in_bounds exWriterOptions exValues ⟨10, 4⟩ (by decide)
